import Mathlib

/-!
Verification of the image-rider disk-image decoding library.

The Rust sources are shallowly embedded: byte slices become `List Nat`
(each element a byte value), `u8`/`u16`/`u32` arithmetic that can wrap is
reduced modulo the corresponding power of two explicitly, `nom` parsers
become `Option`- or `Except`-valued functions from the input list to a
value paired with the remaining input, and a Rust `panic!` is modelled as
a distinguished failure value.
-/

namespace ImageRider

/-- `nom` `take(n)`: split off the first `n` bytes, failing on short input. -/
def takeN (n : Nat) (i : List Nat) : Option (List Nat × List Nat) :=
  if n ≤ i.length then some (i.take n, i.drop n) else none

/-- `nom` `le_u8`: read one byte. -/
def le_u8 : List Nat → Option (Nat × List Nat)
  | [] => none
  | b :: r => some (b, r)

/-- `nom` `le_u16`: read a little-endian 16-bit word. -/
def le_u16 : List Nat → Option (Nat × List Nat)
  | b0 :: b1 :: r => some (b0 + 256 * b1, r)
  | _ => none

/-- `nom` `be_u16`: read a big-endian 16-bit word. -/
def be_u16 : List Nat → Option (Nat × List Nat)
  | b0 :: b1 :: r => some (256 * b0 + b1, r)
  | _ => none

/-- `nom` `le_u32`: read a little-endian 32-bit word. -/
def le_u32 : List Nat → Option (Nat × List Nat)
  | b0 :: b1 :: b2 :: b3 :: r =>
      some (b0 + 256 * b1 + 65536 * b2 + 16777216 * b3, r)
  | _ => none


/-! ## STX (Atari ST / Pasti) sector layer: `src/disk_format/stx/mod.rs`,
     `src/disk_format/stx/sector.rs` -/

/-- One shift step of the CRC-16 loop body in `crc16_add_byte`
    (`src/disk_format/stx/mod.rs`): the `u16` left shift wraps, then the
    CCITT polynomial `0x1021` is xor-ed in when the top bit was set. -/
def crc16_shift (c : Nat) : Nat :=
  if c &&& 0x8000 ≠ 0 then ((c * 2) % 65536) ^^^ 0x1021 else (c * 2) % 65536

/-- The eight-iteration `for` loop of `crc16_add_byte`. -/
def crc16_loop : Nat → Nat → Nat
  | 0, c => c
  | n + 1, c => crc16_loop n (crc16_shift c)

/-- `crc16_add_byte` from `src/disk_format/stx/mod.rs`: xor the byte shifted
    into the high half, then run eight shift steps. -/
def crc16_add_byte (crc b : Nat) : Nat :=
  crc16_loop 8 (crc ^^^ ((b % 256) * 256))

/-- `STXSectorHeader` from `src/disk_format/stx/sector.rs`. -/
structure STXSectorHeader where
  data_offset : Nat
  bit_position : Nat
  read_time : Nat
  id_track : Nat
  id_head : Nat
  id_sector : Nat
  id_size : Nat
  id_crc : Nat
  fdc_status : Nat
  reserved : Nat
deriving Repr, DecidableEq

/-- `calculate_crc16` from `src/disk_format/stx/sector.rs`: CRC over the
    three `0xA1` sync marks, the `0xFE` address mark, and the four id bytes. -/
def calculate_crc16 (h : STXSectorHeader) : Nat :=
  crc16_add_byte
    (crc16_add_byte
      (crc16_add_byte
        (crc16_add_byte
          (crc16_add_byte
            (crc16_add_byte
              (crc16_add_byte (crc16_add_byte 0xFFFF 0xA1) 0xA1) 0xA1) 0xFE)
          h.id_track) h.id_head) h.id_sector) h.id_size

/-- `SanityCheck::check` for `STXSectorHeader`: the computed CRC must equal
    the stored `id_crc`. -/
def stx_sector_header_check (h : STXSectorHeader) : Bool :=
  calculate_crc16 h == h.id_crc

/-- `stx_sector_header_parser` from `src/disk_format/stx/sector.rs`:
    sixteen header bytes, then the CRC sanity check; the `panic!` on a bad
    CRC is modelled as `none`. -/
def stx_sector_header_parse (i : List Nat) :
    Option (STXSectorHeader × List Nat) := do
  let (data_offset, i) ← le_u32 i
  let (bit_position, i) ← le_u16 i
  let (read_time, i) ← le_u16 i
  let (id_track, i) ← le_u8 i
  let (id_head, i) ← le_u8 i
  let (id_sector, i) ← le_u8 i
  let (id_size, i) ← le_u8 i
  let (id_crc, i) ← be_u16 i
  let (fdc_status, i) ← le_u8 i
  let (reserved, i) ← le_u8 i
  let h : STXSectorHeader :=
    ⟨data_offset, bit_position, read_time, id_track, id_head, id_sector,
     id_size, id_crc, fdc_status, reserved⟩
  if stx_sector_header_check h then some (h, i) else none

/-- `sector_size_as_bytes` from `src/disk_format/stx/sector.rs`. -/
def sector_size_as_bytes (size : Nat) : Nat :=
  if size = 2 then 512 else if size = 3 then 1024 else 0

/-- The `for` loop of `stx_sector_data_parser`
    (`src/disk_format/stx/sector.rs`): every sector restarts from the same
    base input `i`, skips `data_offset` bytes, and reads
    `sector_size_as_bytes id_size` bytes. -/
def stx_sector_data_go (i : List Nat) :
    List STXSectorHeader → Option (List (List Nat))
  | [] => some []
  | h :: t => do
      let (_, r) ← takeN h.data_offset i
      let (d, _) ← takeN (sector_size_as_bytes h.id_size) r
      let rest ← stx_sector_data_go i t
      pure (d :: rest)

/-- `stx_sector_data_parser` from `src/disk_format/stx/sector.rs`; the
    remaining input returned is the untouched base input. -/
def stx_sector_data_parse (hdrs : List STXSectorHeader) (i : List Nat) :
    Option (List (List Nat) × List Nat) :=
  (stx_sector_data_go i hdrs).map (fun l => (l, i))


/-! ## Apple GCR nibble layer: `src/disk_format/apple/nibble.rs` -/

/-- `nom` streaming `take_until(needle)`: drop bytes until the needle is a
    prefix of the remainder, returning that remainder; `none` models the
    `Incomplete` (needs more data) failure when the needle never occurs. -/
def dropUntil (needle : List Nat) : List Nat → Option (List Nat)
  | [] => if needle.isPrefixOf ([] : List Nat) then some [] else none
  | a :: rest =>
    if needle.isPrefixOf (a :: rest) then some (a :: rest)
    else dropUntil needle rest

theorem dropUntil_length_le {needle i j : List Nat}
    (h : dropUntil needle i = some j) : j.length ≤ i.length := by
  induction i with
  | nil =>
    simp only [dropUntil] at h
    split at h
    · simp only [Option.some.injEq] at h; subst h; simp
    · exact absurd h (by simp)
  | cons a rest ih =>
    simp only [dropUntil] at h
    split at h
    · simp only [Option.some.injEq] at h; subst h; simp
    · have := ih h
      simp only [List.length_cons]
      omega

theorem dropUntil_starts_with_needle {needle i j : List Nat}
    (h : dropUntil needle i = some j) : needle.isPrefixOf j := by
  induction i with
  | nil =>
    simp only [dropUntil] at h
    split at h
    · simp only [Option.some.injEq] at h
      subst h
      assumption
    · exact absurd h (by simp)
  | cons a rest ih =>
    simp only [dropUntil] at h
    split at h
    · simp only [Option.some.injEq] at h
      subst h
      assumption
    · exact ih h

theorem dropUntil_none_not_head {n2 : List Nat} {a : Nat} {rest : List Nat}
    (h : dropUntil n2 (a :: rest) = none) :
    ¬ (n2.isPrefixOf (a :: rest) = true) ∧ dropUntil n2 rest = none := by
  simp only [dropUntil] at h
  split at h
  · exact absurd h (by simp)
  · next hnp => exact ⟨by simpa using hnp, h⟩

/-- `parse_prologue` from `src/disk_format/apple/nibble.rs`: search for the
    pair `D5 AA`; if the next byte is `96` or `B5` return (remaining input,
    slice from the prologue); otherwise resume the search at the byte right
    after the matched pair (the mismatching byte itself). -/
def parse_prologue (i : List Nat) : Option (List Nat × List Nat) :=
  match h : dropUntil [0xD5, 0xAA] i with
  | none => none
  | some j =>
    match h2 : j.drop 2 with
    | [] => none
    | x :: rest =>
      if x = 0x96 ∨ x = 0xB5 then some (rest, j)
      else parse_prologue (x :: rest)
termination_by i.length
decreasing_by
  have hl : j.length ≤ i.length := dropUntil_length_le h
  have hd : (j.drop 2).length = j.length - 2 := by simp
  rw [h2] at hd
  simp only [List.length_cons] at hd ⊢
  omega

/-- Modelled from the spec: the same scanner but, on a third-byte mismatch,
    the scan resumes "from the byte after the mismatch" — one byte later
    than the source code resumes. -/
def parse_prologue_spec_resume (i : List Nat) : Option (List Nat × List Nat) :=
  match h : dropUntil [0xD5, 0xAA] i with
  | none => none
  | some j =>
    match h2 : j.drop 2 with
    | [] => none
    | x :: rest =>
      if x = 0x96 ∨ x = 0xB5 then some (rest, j)
      else parse_prologue_spec_resume rest
termination_by i.length
decreasing_by
  have hl : j.length ≤ i.length := dropUntil_length_le h
  have hd : (j.drop 2).length = j.length - 2 := by simp
  rw [h2] at hd
  simp only [List.length_cons] at hd
  omega

/-- Does the list begin with a full three-byte prologue `D5 AA X`,
    `X ∈ {96, B5}`? -/
def isPrologueHead : List Nat → Bool
  | a :: b :: x :: _ => a == 213 && b == 170 && (x == 150 || x == 181)
  | _ => false

/-- Reference scanner: the first suffix beginning with a full three-byte
    prologue, found by advancing one byte at a time. -/
def first_prologue : List Nat → Option (List Nat)
  | [] => none
  | a :: rest =>
    if isPrologueHead (a :: rest) then some (a :: rest) else first_prologue rest


/-- `parse_nibble_byte_4_and_4` from `src/disk_format/apple/nibble.rs`:
    two disk bytes decode to `((b0 << 1) | 1) & b1`; the `u8` shift wraps. -/
def parse_nibble_byte_4_and_4 : List Nat → Option (Nat × List Nat)
  | b0 :: b1 :: r => some (((b0 * 2) % 256 ||| 1) &&& b1, r)
  | _ => none

/-- `AddressField` from `src/disk_format/apple/nibble.rs`. -/
structure AddressField where
  volume : Nat
  track : Nat
  sector : Nat
  checksum : Nat
deriving Repr, DecidableEq

/-- Failure modes of the address-field parse: a `nom` incomplete/parse
    failure, or the `panic!` taken on a checksum mismatch when the
    `ignore-checksums` option is off. -/
inductive AddrError where
  | needMoreData : AddrError
  | checksumMismatch : Nat → Nat → AddrError
deriving Repr, DecidableEq

/-- The message carried by each failure (the `panic!` format string of
    `find_and_parse_address_field`). -/
def addr_message : AddrError → String
  | .needMoreData => "Parsing requires more data"
  | .checksumMismatch c d =>
      "Address field computed checksum not equal to disk checksum: " ++
        toString c ++ " " ++ toString d

/-- Lift a `nom` parse failure into the error type. -/
def liftO {α : Type} : Option α → Except AddrError α
  | none => .error .needMoreData
  | some a => .ok a

/-- `find_and_parse_address_field` from `src/disk_format/apple/nibble.rs`:
    scan to the `D5 AA 96` prologue, decode four 4-and-4 bytes (volume,
    track, sector, checksum), skip the three epilogue bytes, and compare
    `volume ^ track ^ sector` with the stored checksum; on a mismatch the
    decode is fatal unless the `ignore-checksums` configuration flag
    (`config.settings.get_bool("ignore-checksums").unwrap_or(false)`) is
    true, in which case the error is only logged and the field returned. -/
def find_and_parse_address_field (ignoreChecksums : Bool) (i : List Nat) :
    Except AddrError (AddressField × List Nat) := do
  let j ← liftO (dropUntil [0xD5, 0xAA, 0x96] i)
  let (_, j) ← liftO (takeN 3 j)
  let (volume, j) ← liftO (parse_nibble_byte_4_and_4 j)
  let (track, j) ← liftO (parse_nibble_byte_4_and_4 j)
  let (sector, j) ← liftO (parse_nibble_byte_4_and_4 j)
  let (checksum, j) ← liftO (parse_nibble_byte_4_and_4 j)
  let (_, j) ← liftO (takeN 3 j)
  let computed := volume ^^^ track ^^^ sector
  if computed ≠ checksum ∧ ignoreChecksums = false then
    .error (.checksumMismatch computed checksum)
  else
    .ok (⟨volume, track, sector, checksum⟩, j)

/-- The S2 boundary input: a well-formed fourteen-byte address field with a
    good checksum (volume 254, track 23, sector 5, checksum 236). -/
def s2_address_field_input : List Nat :=
  [0xD5, 0xAA, 0x96, 0xFF, 0xFE, 0xAB, 0xBF, 0xAA, 0xAF, 0xFE, 0xEE,
   0xDE, 0xAA, 0xEB]

/-- The S3 boundary input: S2 with the checksum bytes replaced by `00 00`. -/
def s3_address_field_input : List Nat :=
  [0xD5, 0xAA, 0x96, 0xFF, 0xFE, 0xAB, 0xBF, 0xAA, 0xAF, 0x00, 0x00,
   0xDE, 0xAA, 0xEB]

/-- `NIBBLE_WRITE_TABLE_6_AND_2` from `src/disk_format/apple/nibble.rs`. -/
def NIBBLE_WRITE_TABLE_6_AND_2 : List Nat :=
  [0x96, 0x97, 0x9A, 0x9B, 0x9D, 0x9E, 0x9F, 0xA6, 0xA7, 0xAB, 0xAC, 0xAD, 0xAE, 0xAF, 0xB2, 0xB3,
   0xB4, 0xB5, 0xB6, 0xB7, 0xB9, 0xBA, 0xBB, 0xBC, 0xBD, 0xBE, 0xBF, 0xCB, 0xCD, 0xCE, 0xCF, 0xD3,
   0xD6, 0xD7, 0xD9, 0xDA, 0xDB, 0xDC, 0xDD, 0xDE, 0xDF, 0xE5, 0xE6, 0xE7, 0xE9, 0xEA, 0xEB, 0xEC,
   0xED, 0xEE, 0xEF, 0xF2, 0xF3, 0xF4, 0xF5, 0xF6, 0xF7, 0xF9, 0xFA, 0xFB, 0xFC, 0xFD, 0xFE, 0xFF]

/-- `NIBBLE_READ_TABLE_6_AND_2` from `src/disk_format/apple/nibble.rs`:
    the write table inverted, with zero at invalid entries. -/
def NIBBLE_READ_TABLE_6_AND_2 : List Nat :=
  [0x00, 0x00, 0x00, 0x00, 0x00, 0x00, 0x00, 0x00, 0x00, 0x00, 0x00, 0x00, 0x00, 0x00, 0x00, 0x00,
   0x00, 0x00, 0x00, 0x00, 0x00, 0x00, 0x00, 0x00, 0x00, 0x00, 0x00, 0x00, 0x00, 0x00, 0x00, 0x00,
   0x00, 0x00, 0x00, 0x00, 0x00, 0x00, 0x00, 0x00, 0x00, 0x00, 0x00, 0x00, 0x00, 0x00, 0x00, 0x00,
   0x00, 0x00, 0x00, 0x00, 0x00, 0x00, 0x00, 0x00, 0x00, 0x00, 0x00, 0x00, 0x00, 0x00, 0x00, 0x00,
   0x00, 0x00, 0x00, 0x00, 0x00, 0x00, 0x00, 0x00, 0x00, 0x00, 0x00, 0x00, 0x00, 0x00, 0x00, 0x00,
   0x00, 0x00, 0x00, 0x00, 0x00, 0x00, 0x00, 0x00, 0x00, 0x00, 0x00, 0x00, 0x00, 0x00, 0x00, 0x00,
   0x00, 0x00, 0x00, 0x00, 0x00, 0x00, 0x00, 0x00, 0x00, 0x00, 0x00, 0x00, 0x00, 0x00, 0x00, 0x00,
   0x00, 0x00, 0x00, 0x00, 0x00, 0x00, 0x00, 0x00, 0x00, 0x00, 0x00, 0x00, 0x00, 0x00, 0x00, 0x00,
   0x00, 0x00, 0x00, 0x00, 0x00, 0x00, 0x00, 0x00, 0x00, 0x00, 0x00, 0x00, 0x00, 0x00, 0x00, 0x00,
   0x00, 0x00, 0x00, 0x00, 0x00, 0x00, 0x00, 0x01, 0x00, 0x00, 0x02, 0x03, 0x00, 0x04, 0x05, 0x06,
   0x00, 0x00, 0x00, 0x00, 0x00, 0x00, 0x07, 0x08, 0x00, 0x00, 0x00, 0x09, 0x0A, 0x0B, 0x0C, 0x0D,
   0x00, 0x00, 0x0E, 0x0F, 0x10, 0x11, 0x12, 0x13, 0x00, 0x14, 0x15, 0x16, 0x17, 0x18, 0x19, 0x1A,
   0x00, 0x00, 0x00, 0x00, 0x00, 0x00, 0x00, 0x00, 0x00, 0x00, 0x00, 0x1B, 0x00, 0x1C, 0x1D, 0x1E,
   0x00, 0x00, 0x00, 0x1F, 0x00, 0x00, 0x20, 0x21, 0x00, 0x22, 0x23, 0x24, 0x25, 0x26, 0x27, 0x28,
   0x00, 0x00, 0x00, 0x00, 0x00, 0x29, 0x2A, 0x2B, 0x00, 0x2C, 0x2D, 0x2E, 0x2F, 0x30, 0x31, 0x32,
   0x00, 0x00, 0x33, 0x34, 0x35, 0x36, 0x37, 0x38, 0x00, 0x39, 0x3A, 0x3B, 0x3C, 0x3D, 0x3E, 0x3F]

/-- `DataField` from `src/disk_format/apple/nibble.rs`. -/
structure DataField where
  prologue : List Nat
  data : List Nat
  checksum : Nat
  epilogue : List Nat
deriving Repr, DecidableEq

/-- The running-xor pass of `build_nibble_sector`: each element is xor-ed
    with the previous element's original value; returns the transformed
    list together with the final `checksum` variable (the last original
    element). -/
def nibble_xor_chain : Nat → List Nat → List Nat × Nat
  | checksum, [] => ([], checksum)
  | checksum, b :: rest =>
    let p := nibble_xor_chain b rest
    ((b ^^^ checksum) :: p.1, p.2)

/-- `build_nibble_sector` from `src/disk_format/apple/nibble.rs`: build the
    344-byte work buffer (auxiliary low-bit bytes 0..0x55, the raw data at
    0x56..0x155, two trailing zero bytes), mask bytes 84 and 85, run the
    xor chain, and map the first 342 bytes through the write table using
    their upper six bits.  The stored `checksum` is the final value of the
    loop's checksum variable. -/
def build_nibble_sector (data : List Nat) : DataField :=
  let nd1 : List Nat := (List.range 344).map (fun k =>
    if k < 0x56 then
      let ac := data.getD ((k + 0xAC) % 0x100) 0
      let m56 := data.getD ((k + 0x56) % 0x100) 0
      let mi := data.getD (k % 0x100) 0
      ((((ac &&& 1) <<< 1) ||| ((ac &&& 2) >>> 1)) <<< 6) |||
        ((((m56 &&& 1) <<< 1) ||| ((m56 &&& 2) >>> 1)) <<< 4) |||
        ((((mi &&& 1) <<< 1) ||| ((mi &&& 2) >>> 1)) <<< 2)
    else if k < 342 then data.getD (k - 0x56) 0
    else 0)
  let nd2 := nd1.set 84 ((nd1.getD 84 0) &&& 0x3F)
  let nd3 := nd2.set 85 ((nd2.getD 85 0) &&& 0x3F)
  let chained := nibble_xor_chain 0 nd3
  { prologue := [0xD5, 0xAA, 0xAD]
    data := (chained.1.take 342).map
      (fun d => NIBBLE_WRITE_TABLE_6_AND_2.getD (d >>> 2) 0)
    checksum := chained.2
    epilogue := [0xDE, 0xAA, 0xEB] }

/-- The `for` loop of `data_field_build_buffer`: fold the running xor of
    read-table lookups over the 342 data bytes, scattering the running
    value into the work buffer (positions `n - index - 1` for the first
    0x56 bytes, `index - 0x56` for the rest). -/
def build_buffer_loop (n : Nat) :
    List Nat → Nat → Nat → List Nat → List Nat × Nat
  | buffer, c, _, [] => (buffer, c)
  | buffer, c, idx, b :: rest =>
    let c2 := c ^^^ NIBBLE_READ_TABLE_6_AND_2.getD b 0
    let buffer2 :=
      if idx < 0x56 then buffer.set (n - idx - 1) c2
      else buffer.set (idx - 0x56) c2
    build_buffer_loop n buffer2 c2 (idx + 1) rest

/-- `data_field_build_buffer` from `src/disk_format/apple/nibble.rs`:
    returns the de-interleaved work buffer and the computed checksum
    (running xor over the 342 lookups, finally xor-ed with the lookup of
    the stored checksum byte). -/
def data_field_build_buffer (df : DataField) : List Nat × Nat :=
  let n := df.data.length
  let p := build_buffer_loop n (List.replicate 342 0) 0 0 df.data
  (p.1, p.2 ^^^ NIBBLE_READ_TABLE_6_AND_2.getD df.checksum 0)

/-- `Sector` from `src/disk_format/apple/nibble.rs`: 256 decoded bytes. -/
structure Sector where
  data : List Nat
deriving Repr, DecidableEq

/-- `transform_data_field` from `src/disk_format/apple/nibble.rs`: build
    the buffer and checksum; a nonzero checksum is fatal (`panic!`)
    unless `ignore-checksums` is set, in which case it is only logged;
    then reassemble each of the 256 bytes from its six high bits and the
    two low bits stored in the auxiliary area (`u8` shifts wrap). -/
def transform_data_field (ignoreChecksums : Bool) (df : DataField) :
    Except (Nat × Nat) Sector :=
  let p := data_field_build_buffer df
  if p.2 ≠ 0 ∧ ignoreChecksums = false then .error (p.2, df.checksum)
  else
    let reverse_values : List Nat := [0x00, 0x02, 0x01, 0x03]
    .ok ⟨(List.range 256).map (fun i =>
      let byte_1 := p.1.getD i 0
      let nibble_low := p.1.length - (i % 0x56) - 1
      let byte_2 := p.1.getD nibble_low 0
      let shift_pairs := (i / 0x56) * 2
      ((byte_1 * 4) % 256) |||
        reverse_values.getD ((byte_2 >>> shift_pairs) &&& 3) 0)⟩

/-- The identity byte pattern `0, 1, ..., 255`: the natural round-trip
    input (the repository's own test overwrites its last byte with 1). -/
def c1_failing_input : List Nat := List.range 256

/-! ## Apple DOS 3.3 catalog layer: `src/disk_format/apple/catalog.rs` -/

/-- `FileType` from `src/disk_format/apple/catalog.rs`.  The Rust enum
    gives explicit discriminants 0, 1, 2, 4, 8, 10, 20, 40; `Unknown` has
    none, so its discriminant is the successor 41. -/
inductive AppleFileType where
  | Text
  | IntegerBasic
  | AppleSoftBasic
  | Binary
  | SType
  | RelocatableObjectModule
  | AType
  | BType
  | Unknown
deriving Repr, DecidableEq

/-- The `as u8` cast of `FileType`. -/
def apple_file_type_code : AppleFileType → Nat
  | .Text => 0
  | .IntegerBasic => 1
  | .AppleSoftBasic => 2
  | .Binary => 4
  | .SType => 8
  | .RelocatableObjectModule => 10
  | .AType => 20
  | .BType => 40
  | .Unknown => 41

/-- The `match file_type & 0x7F` arms of `parse_file_entry`. -/
def apple_file_type_of_code (n : Nat) : AppleFileType :=
  if n = 0 then .Text
  else if n = 1 then .IntegerBasic
  else if n = 2 then .AppleSoftBasic
  else if n = 4 then .Binary
  else if n = 8 then .SType
  else if n = 10 then .RelocatableObjectModule
  else if n = 20 then .AType
  else if n = 40 then .BType
  else .Unknown

/-- `FileEntry` from `src/disk_format/apple/catalog.rs`; `file_name` holds
    the raw 30 on-disk bytes after parsing, or the low-ASCII name before
    serialization. -/
structure AppleFileEntry where
  track_of_first_track_sector_list_sector : Nat
  sector_of_first_track_sector_list_sector : Nat
  file_type : AppleFileType
  locked : Bool
  file_name : List Nat
  file_length_in_sectors : Nat
deriving Repr, DecidableEq

/-- `little_endian_word_to_bytes` from `src/serialize.rs`. -/
def little_endian_word_to_bytes (w : Nat) : List Nat :=
  [w &&& 0xFF, (w >>> 8) &&& 0xFF]

/-- `FileEntry::as_vec` from `src/disk_format/apple/catalog.rs`: TSL track
    and sector, the type byte (`+ 0x80` when locked), the name shifted into
    high-bit ASCII and right-padded with `0xA0` to 30 bytes, then the
    length word; a name length outside `[1, 30]` is an `Invalid` error. -/
def file_entry_as_vec (e : AppleFileEntry) : Except String (List Nat) :=
  let ft :=
    if e.locked then apple_file_type_code e.file_type + 0x80
    else apple_file_type_code e.file_type
  if e.file_name.length = 0 ∨ e.file_name.length > 30 then
    .error ("Filename size is invalid: " ++ toString e.file_name.length)
  else
    .ok ([e.track_of_first_track_sector_list_sector,
          e.sector_of_first_track_sector_list_sector, ft] ++
      e.file_name.map (fun c => c + 0x80) ++
      List.replicate (30 - e.file_name.length) 0xA0 ++
      little_endian_word_to_bytes e.file_length_in_sectors)

/-- `parse_file_entry` from `src/disk_format/apple/catalog.rs`: bit 7 of
    the type byte is the locked flag, its low seven bits select the file
    type, the name is the raw 30 bytes, then the little-endian length. -/
def parse_file_entry (i : List Nat) : Option (AppleFileEntry × List Nat) := do
  let (t, i) ← le_u8 i
  let (s, i) ← le_u8 i
  let (ft, i) ← le_u8 i
  let (name, i) ← takeN 30 i
  let (len, i) ← le_u16 i
  pure (⟨t, s, apple_file_type_of_code (ft &&& 0x7F), (ft &&& 0x80) != 0,
         name, len⟩, i)

/-- `String::trim_end_matches(' ')` on a byte string. -/
def trim_trailing_spaces (l : List Nat) : List Nat :=
  (l.reverse.dropWhile (fun c => c == 0x20)).reverse

/-- `FileEntry::filename` from `src/disk_format/apple/catalog.rs` at the
    byte level: subtract `0x80` from every byte strictly greater than
    `0x80`, convert through `String::from_utf8` — which on these values
    succeeds exactly when every mapped byte is below `0x80`, a lone `0x80`
    byte being invalid UTF-8 — and trim trailing spaces. -/
def filename_decode (name : List Nat) : Option (List Nat) :=
  let m := name.map (fun c => if 0x80 < c then c - 0x80 else c)
  if m.all (fun c => c < 0x80) then some (trim_trailing_spaces m) else none

/-- Modelled from the spec: "Decoded by subtracting 0x80 from bytes ≥ 0x80
    and stripping trailing spaces (0x20) after conversion" — note the
    non-strict comparison. -/
def filename_decode_spec_ge (name : List Nat) : List Nat :=
  trim_trailing_spaces (name.map (fun c => if 0x80 ≤ c then c - 0x80 else c))

/-- Modelled from the amended spec wording: subtract 0x80 only from bytes
    strictly greater than 0x80 (a byte equal to 0x80 is left unchanged and
    makes the UTF-8 conversion fail), then strip trailing spaces. -/
def filename_decode_spec_gt (name : List Nat) : Option (List Nat) :=
  let m := name.map (fun c => if 0x80 < c then c - 0x80 else c)
  if 0x80 ∈ m then none else some (trim_trailing_spaces m)

/-- `nom` `count(parser, n)`. -/
def countP {α : Type} (p : List Nat → Option (α × List Nat)) :
    Nat → List Nat → Option (List α × List Nat)
  | 0, i => some ([], i)
  | n + 1, i => do
    let (a, i) ← p i
    let (l, i) ← countP p n i
    pure (a :: l, i)

/-- `valid_file` from `src/disk_format/apple/catalog.rs`: slots whose TSL
    track byte is `0x00` (never allocated) or `0xFF` (deleted) are not
    valid files. -/
def valid_file (track : Nat) : Bool :=
  track != 0x00 && track != 0xFF

/-- `Catalog` from `src/disk_format/apple/catalog.rs` (the redundant
    by-filename hash map is omitted; it holds the same entries). -/
structure AppleCatalog where
  reserved : Nat
  track_number_of_next_sector : Nat
  sector_number_of_next_sector : Nat
  reserved_2 : List Nat
  file_entries : List AppleFileEntry
deriving Repr, DecidableEq

/-- `parse_catalog` from `src/disk_format/apple/catalog.rs`: the 11 header
    bytes, then seven 35-byte file entries filtered by `valid_file`. -/
def parse_catalog (i : List Nat) : Option (AppleCatalog × List Nat) := do
  let (reserved, i) ← le_u8 i
  let (nt, i) ← le_u8 i
  let (ns, i) ← le_u8 i
  let (r2, i) ← takeN 8 i
  let (fes, i) ← countP parse_file_entry 7 i
  pure (⟨reserved, nt, ns, r2,
         fes.filter (fun fe =>
           valid_file fe.track_of_first_track_sector_list_sector)⟩, i)

/-- The `while` loop of `parse_catalogs`
    (`src/disk_format/apple/catalog.rs`): follow the next-track/next-sector
    pointer while both are nonzero, accumulating the entries of each parsed
    catalog sector.  The loop in the source has no bound, so it is modelled
    with explicit fuel; `none` at fuel 0 means the loop was still running
    after that many iterations. -/
def parse_catalogs_loop (tracks : Nat → Nat → List Nat) :
    Nat → AppleCatalog → List AppleFileEntry → Option (List AppleFileEntry)
  | 0, _, _ => none
  | fuel + 1, cat, acc =>
    if cat.track_number_of_next_sector ≠ 0 ∧
        cat.sector_number_of_next_sector ≠ 0 then
      match parse_catalog
          (tracks cat.track_number_of_next_sector
            cat.sector_number_of_next_sector) with
      | none => none
      | some (c, _) => parse_catalogs_loop tracks fuel c (acc ++ c.file_entries)
    else some acc

/-- `parse_catalogs` from `src/disk_format/apple/catalog.rs`, with the
    unbounded chain walk fuelled as in `parse_catalogs_loop`. -/
def parse_catalogs (tracks : Nat → Nat → List Nat)
    (catalog_track catalog_sector : Nat) (fuel : Nat) :
    Option (List AppleFileEntry) :=
  match parse_catalog (tracks catalog_track catalog_sector) with
  | none => none
  | some (c, _) => parse_catalogs_loop tracks fuel c c.file_entries

/-- `TrackSectorPair` from `src/disk_format/apple/catalog.rs`. -/
structure TrackSectorPair where
  track_number : Nat
  sector_number : Nat
deriving Repr, DecidableEq

/-- `parse_track_sector_pair` from `src/disk_format/apple/catalog.rs`. -/
def parse_track_sector_pair (i : List Nat) :
    Option (TrackSectorPair × List Nat) := do
  let (t, i) ← le_u8 i
  let (s, i) ← le_u8 i
  pure (⟨t, s⟩, i)

/-- The bounded pair loop of `parse_track_sector_list`: the source counts
    `cnt` from 1 while `cnt <= max_tsps = 121`, so at most 121 pairs are
    pushed; `remaining` counts the iterations still allowed (121 at the
    start).  A pair with track 0, or the bound running out, ends the loop
    without pushing the current pair. -/
def tsp_loop : Nat → TrackSectorPair → List Nat →
    Option (List TrackSectorPair × List Nat)
  | 0, _, i => some ([], i)
  | remaining + 1, tsp, i =>
    if tsp.track_number ≠ 0 then
      match parse_track_sector_pair i with
      | none => none
      | some (tsp2, i2) =>
        match tsp_loop remaining tsp2 i2 with
        | none => none
        | some (l, r) => some (tsp :: l, r)
    else some ([], i)

/-- `TrackSectorList` from `src/disk_format/apple/catalog.rs`. -/
structure TrackSectorListE where
  reserved : Nat
  track_number_of_next_sector : Option Nat
  sector_number_of_next_sector : Option Nat
  reserved_2 : List Nat
  sector_offset_in_file : List Nat
  reserved_3 : List Nat
  track_sector_pairs : List TrackSectorPair
deriving Repr, DecidableEq

/-- `parse_track_sector_list` from `src/disk_format/apple/catalog.rs`:
    the 12 header bytes (a zero next-track or next-sector byte becomes
    `None`), then the bounded pair loop. -/
def parse_track_sector_list (i : List Nat) :
    Option (TrackSectorListE × List Nat) := do
  let (reserved, i) ← le_u8 i
  let (nt, i) ← le_u8 i
  let (ns, i) ← le_u8 i
  let (r2, i) ← takeN 2 i
  let (so, i) ← takeN 2 i
  let (r3, i) ← takeN 5 i
  let (tsp, i) ← parse_track_sector_pair i
  let (pairs, i) ← tsp_loop 121 tsp i
  pure (⟨reserved, if nt ≠ 0 then some nt else none,
         if ns ≠ 0 then some ns else none, r2, so, r3, pairs⟩, i)

/-- The `while track.is_some()` loop of `FileEntry::build_file`
    (`src/disk_format/apple/catalog.rs`): follow the continuation
    track/sector of each track/sector list.  The source loop has no bound,
    so it is modelled with explicit fuel; the unconditional `unwrap` of the
    continuation sector is a `panic!` when the sector is `None`, modelled
    as `none`. -/
def build_file_loop (tracks : Nat → Nat → List Nat) :
    Nat → Option Nat → Option Nat → List TrackSectorListE →
    Option (List TrackSectorListE)
  | 0, _, _, _ => none
  | fuel + 1, trackOpt, sectorOpt, acc =>
    match trackOpt with
    | none => some acc
    | some t =>
      match sectorOpt with
      | none => none
      | some s =>
        match parse_track_sector_list (tracks t s) with
        | none => none
        | some (tsl, _) =>
          build_file_loop tracks fuel tsl.track_number_of_next_sector
            tsl.sector_number_of_next_sector (acc ++ [tsl])

/-- `FileEntry::build_file` from `src/disk_format/apple/catalog.rs`, with
    the unbounded continuation walk fuelled as in `build_file_loop`. -/
def build_file (tracks : Nat → Nat → List Nat) (e : AppleFileEntry)
    (fuel : Nat) : Option (List TrackSectorListE) :=
  match parse_track_sector_list
      (tracks e.track_of_first_track_sector_list_sector
        e.sector_of_first_track_sector_list_sector) with
  | none => none
  | some (tsl, _) =>
    build_file_loop tracks fuel tsl.track_number_of_next_sector
      tsl.sector_number_of_next_sector [tsl]

/-- A 256-byte catalog sector whose next-catalog pointer refers back to its
    own location (track 17, sector 2); all seven entry slots are empty. -/
def c7_cyclic_catalog_sector : List Nat := 0 :: 17 :: 2 :: List.replicate 253 0

/-- A disk whose every sector is the self-referencing catalog sector. -/
def c7_cyclic_tracks : Nat → Nat → List Nat := fun _ _ => c7_cyclic_catalog_sector

/-- A 256-byte track/sector-list sector whose continuation pointer refers
    back to its own location (track 5, sector 5) and holds no pairs. -/
def c7_cyclic_tsl_sector : List Nat := 0 :: 5 :: 5 :: List.replicate 253 0

/-- A disk whose every sector is the self-referencing track/sector list. -/
def c7_cyclic_tsl_tracks : Nat → Nat → List Nat := fun _ _ => c7_cyclic_tsl_sector

/-- A file entry whose first track/sector list lives at (5, 5). -/
def c7_cyclic_entry : AppleFileEntry := ⟨5, 5, .Binary, false, [65], 1⟩

/-! ## Commodore D64 layer: `src/disk_format/commodore/d64.rs` -/

/-- `track_to_block_length` from `src/disk_format/commodore/d64.rs`.  The
    Rust `match` uses half-open ranges `1..17`, `17..24`, `24..30`,
    `30..35` (the upper bound excluded). -/
def track_to_block_length (track : Nat) : Except String Nat :=
  if 1 ≤ track ∧ track < 17 then .ok 21
  else if 17 ≤ track ∧ track < 24 then .ok 19
  else if 24 ≤ track ∧ track < 30 then .ok 18
  else if 30 ≤ track ∧ track < 35 then .ok 17
  else .error "Invalid track number: {track}"

/-- `nom` `verify(le_u8, p)`: read a byte and fail unless it satisfies the
    predicate. -/
def verify_u8 (p : Nat → Bool) (i : List Nat) : Option (Nat × List Nat) := do
  let (b, i) ← le_u8 i
  if p b then some (b, i) else none

/-- `D64BAMEntry` from `src/disk_format/commodore/d64.rs`. -/
structure D64BAMEntry where
  free_sectors_on_track : Nat
  sector_use_bitmap : List Nat
deriving Repr, DecidableEq

/-- `bam_entry_parser` from `src/disk_format/commodore/d64.rs`: one free
    count byte and three bitmap bytes. -/
def bam_entry_parse (i : List Nat) : Option (D64BAMEntry × List Nat) := do
  let (f, i) ← le_u8 i
  let (bm, i) ← takeN 3 i
  pure (⟨f, bm⟩, i)

/-- `D64BlockAvailabilityMap` from `src/disk_format/commodore/d64.rs`; the
    disk name is kept as its raw 16 bytes (the PETSCII conversion is the
    external collaborator's), and the `dos_type` field, which can only be
    `DOSType::CBM`, is omitted. -/
structure D64BlockAvailabilityMap where
  first_directory_sector_track : Nat
  first_directory_sector_sector : Nat
  disk_dos_version : Nat
  reserved : Nat
  bam_entries : List D64BAMEntry
  disk_name : List Nat
  second_reserved : List Nat
  disk_id : Nat
  third_reserved : Nat
deriving Repr, DecidableEq

/-- `nom` `tag("2A")`: match the two ASCII bytes `32 41`, consuming them. -/
def tag_2A (i : List Nat) : Option (List Nat × List Nat) := do
  let (tg, i) ← takeN 2 i
  if tg = [0x32, 0x41] then some (tg, i) else none

/-- The body of `d64_block_availability_map_parser` after the `0x16500`
    byte skip: the three verified magic bytes (`0x12`, `0x01`, `0x41`), a
    reserved byte, 35 four-byte BAM entries, the 16-byte disk name, two
    reserved bytes, the disk id word, a reserved byte, the `tag("2A")`
    match, and the trailing 2 + 84 + 3 skipped bytes. -/
def d64_bam_after_skip (i : List Nat) :
    Option (D64BlockAvailabilityMap × List Nat) := do
  let (t, i) ← verify_u8 (fun v => v == 0x12) i
  let (s, i) ← verify_u8 (fun v => v == 0x01) i
  let (dv, i) ← verify_u8 (fun v => v == 0x41) i
  let (reserved, i) ← le_u8 i
  let (entries, i) ← countP bam_entry_parse 35 i
  let (nm, i) ← takeN 16 i
  let (r2, i) ← takeN 2 i
  let (id2, i) ← le_u16 i
  let (r3, i) ← le_u8 i
  let (_, i) ← tag_2A i
  let (_, i) ← takeN 2 i
  let (_, i) ← takeN 84 i
  let (_, i) ← takeN 3 i
  pure (⟨t, s, dv, reserved, entries, nm, r2, id2, r3⟩, i)

/-- `d64_block_availability_map_parser` from
    `src/disk_format/commodore/d64.rs`: jump over the first `0x16500`
    bytes, then parse the BAM block. -/
def d64_block_availability_map_parse (i : List Nat) :
    Option (D64BlockAvailabilityMap × List Nat) := do
  let (_, i) ← takeN 0x16500 i
  d64_bam_after_skip i

/-- A 256-byte BAM block whose only nonzero bytes are the three magic
    bytes at its start and the ASCII "2A" at block offset 165. -/
def d64_ok_block : List Nat :=
  [0x12, 0x01, 0x41] ++ List.replicate 162 0 ++ [0x32, 0x41] ++
    List.replicate 89 0

/-- An accepted D64 image: `0x16500` zero bytes followed by the BAM
    block. -/
def d64_ok_input : List Nat := List.replicate 0x16500 0 ++ d64_ok_block

/-- The BAM value decoded from `d64_ok_block`. -/
def d64_ok_bam : D64BlockAvailabilityMap :=
  ⟨0x12, 0x01, 0x41, 0, List.replicate 35 ⟨0, [0, 0, 0]⟩,
   List.replicate 16 0, [0, 0], 0, 0⟩

/-! ## Theorems -/

set_option maxRecDepth 100000 in
/-- C1: evaluating the 6-and-2 round trip at the identity byte pattern.
    The decoded sector data does equal the input, but the checksum computed
    during decoding is `b[255] >> 2 = 63`, not 0, so with
    `ignore-checksums` off the error branch is taken (a `panic!`): the
    encoder stores a raw checksum byte of 0 instead of the encoded running
    checksum, so decoding yields `input[255] >> 2`, which is nonzero for
    any input whose last byte is at least 4.  The repository's own
    round-trip test avoids this by overwriting `data[255]` with 1. -/
theorem apple_6_and_2_round_trip_eval :
    (data_field_build_buffer (build_nibble_sector c1_failing_input)).2 = 63 ∧
    transform_data_field false (build_nibble_sector c1_failing_input) =
      .error (63, 0) ∧
    transform_data_field true (build_nibble_sector c1_failing_input) =
      .ok ⟨c1_failing_input⟩ := by
  exact ⟨rfl, rfl, rfl⟩

/-! ### C4: every returned STX sector header satisfies the CRC invariant -/

/-- C4: for every `STXSectorHeader` successfully returned by
    `stx_sector_header_parser`, the CCITT CRC-16 over
    `A1 A1 A1 FE id_track id_head id_sector id_size` equals the stored
    big-endian `id_crc`; a header with a bad CRC is never returned (the
    parse is fatal, modelled as `none`). -/
theorem stx_sector_header_crc_invariant :
    ∀ i h rest, stx_sector_header_parse i = some (h, rest) →
      calculate_crc16 h = h.id_crc := by
  intro i h rest hp
  simp only [stx_sector_header_parse, Option.bind_eq_bind, Option.bind_eq_some] at hp
  obtain ⟨⟨a1, i1⟩, h1, ⟨a2, i2⟩, h2, ⟨a3, i3⟩, h3, ⟨a4, i4⟩, h4, ⟨a5, i5⟩, h5,
    ⟨a6, i6⟩, h6, ⟨a7, i7⟩, h7, ⟨a8, i8⟩, h8, ⟨a9, i9⟩, h9, ⟨a10, i10⟩, h10, hfin⟩ := hp
  split at hfin
  · next hchk =>
    simp only [Option.some.injEq, Prod.mk.injEq] at hfin
    obtain ⟨rfl, rfl⟩ := hfin
    simpa [stx_sector_header_check] using hchk
  · exact absurd hfin (by simp)

set_option maxRecDepth 4000 in
/-- C4 witness: a concrete sixteen-byte sector header (track 0, head 0,
    sector 1, size 2, stored CRC `0xCA6F`) parses successfully and the
    theorem applies to it. -/
theorem stx_sector_header_crc_invariant_witness :
    calculate_crc16 ⟨0, 0, 0, 0, 0, 1, 2, 51823, 0, 0⟩ = 51823 := by
  apply stx_sector_header_crc_invariant
    [0, 0, 0, 0, 0, 0, 0, 0, 0, 0, 1, 2, 202, 111, 0, 0] _ []
  rfl

/-! ### C10: an unrecognized `id_size` yields a zero-length sector, not an
     error -/

/-- Helper for C10: the sector-data loop succeeds whenever every header's
    seek-plus-read stays inside the input, and a header whose size field
    decodes to zero contributes an empty slice. -/
theorem stx_sector_data_go_spec (i : List Nat) :
    ∀ hdrs : List STXSectorHeader,
      (∀ h ∈ hdrs, h.data_offset + sector_size_as_bytes h.id_size ≤ i.length) →
    ∃ res, stx_sector_data_go i hdrs = some res ∧
      ∀ k h, hdrs.get? k = some h → sector_size_as_bytes h.id_size = 0 →
        res.get? k = some [] := by
  intro hdrs
  induction hdrs with
  | nil =>
    intro _
    exact ⟨[], rfl, by intro k h hk; simp at hk⟩
  | cons h t ih =>
    intro hb
    have h1 : h.data_offset + sector_size_as_bytes h.id_size ≤ i.length :=
      hb h (by simp)
    have h2 : ∀ x ∈ t, x.data_offset + sector_size_as_bytes x.id_size ≤ i.length :=
      fun x hx => hb x (by simp [hx])
    obtain ⟨res, hres, hidx⟩ := ih h2
    have e1 : takeN h.data_offset i = some (i.take h.data_offset, i.drop h.data_offset) := by
      simp only [takeN, if_pos (by omega : h.data_offset ≤ i.length)]
    have e2 : takeN (sector_size_as_bytes h.id_size) (i.drop h.data_offset) =
        some ((i.drop h.data_offset).take (sector_size_as_bytes h.id_size),
              (i.drop h.data_offset).drop (sector_size_as_bytes h.id_size)) := by
      simp only [takeN]
      rw [if_pos]
      simp only [List.length_drop]
      omega
    refine ⟨((i.drop h.data_offset).take (sector_size_as_bytes h.id_size)) :: res, ?_, ?_⟩
    · simp [stx_sector_data_go, e1, e2, hres]
    · intro k hh hk hsz
      cases k with
      | zero =>
        simp only [List.get?_cons_zero, Option.some.injEq] at hk
        subst hk
        simp [hsz]
      | succ k =>
        simp only [List.get?_cons_succ] at hk ⊢
        exact hidx k hh hk hsz

/-- C10: `sector_size_as_bytes` returns `0` for any `id_size` other than
    `2` or `3`, and consequently `stx_sector_data_parser` succeeds (given
    every header's seek stays inside the input) and records a zero-length
    slice for every such sector; no error is raised for an unrecognized
    `id_size`. -/
theorem stx_unknown_id_size_zero_data :
    (∀ s, s ≠ 2 → s ≠ 3 → sector_size_as_bytes s = 0) ∧
    (∀ (hdrs : List STXSectorHeader) (i : List Nat),
      (∀ h ∈ hdrs, h.data_offset + sector_size_as_bytes h.id_size ≤ i.length) →
      ∃ res, stx_sector_data_parse hdrs i = some (res, i) ∧
        ∀ k h, hdrs.get? k = some h → h.id_size ≠ 2 → h.id_size ≠ 3 →
          res.get? k = some []) := by
  constructor
  · intro s h2 h3
    simp [sector_size_as_bytes, h2, h3]
  · intro hdrs i hb
    obtain ⟨res, hres, hidx⟩ := stx_sector_data_go_spec i hdrs hb
    refine ⟨res, ?_, ?_⟩
    · simp [stx_sector_data_parse, hres]
    · intro k h hk h2 h3
      exact hidx k h hk (by simp [sector_size_as_bytes, h2, h3])

/-- C10 witness: a single header with the unrecognized `id_size = 5` and
    offset `0` on empty input; the parse succeeds with one empty slice. -/
theorem stx_unknown_id_size_zero_data_witness :
    ∃ res, stx_sector_data_parse [⟨0, 0, 0, 0, 0, 1, 5, 0, 0, 0⟩] [] = some (res, []) ∧
      ∀ k h, ([⟨0, 0, 0, 0, 0, 1, 5, 0, 0, 0⟩] : List STXSectorHeader).get? k = some h →
        h.id_size ≠ 2 → h.id_size ≠ 3 → res.get? k = some [] := by
  exact stx_unknown_id_size_zero_data.2 [⟨0, 0, 0, 0, 0, 1, 5, 0, 0, 0⟩] [] (by decide)


theorem isPrologueHead_starts_with_pair {l : List Nat} (h : isPrologueHead l = true) :
    ([213, 170] : List Nat).isPrefixOf l = true := by
  match l with
  | [] => simp [isPrologueHead] at h
  | [a] => simp [isPrologueHead] at h
  | [a, b] => simp [isPrologueHead] at h
  | a :: b :: x :: t =>
    simp only [isPrologueHead, Bool.and_eq_true, beq_iff_eq] at h
    obtain ⟨⟨rfl, rfl⟩, _⟩ := h
    simp [List.isPrefixOf]

theorem isPrologueHead_false_of_head {a : Nat} {l : List Nat} (ha : a ≠ 213) :
    isPrologueHead (a :: l) = false := by
  match l with
  | [] => rfl
  | [b] => rfl
  | b :: x :: t => simp [isPrologueHead, ha]

theorem first_prologue_of_dropUntil_none {i : List Nat}
    (h : dropUntil [213, 170] i = none) : first_prologue i = none := by
  induction i with
  | nil => rfl
  | cons a rest ih =>
    obtain ⟨hnp, hrest⟩ := dropUntil_none_not_head h
    rw [first_prologue]
    rw [if_neg]
    · exact ih hrest
    · intro hh
      exact hnp (isPrologueHead_starts_with_pair hh)

theorem first_prologue_of_dropUntil_some {i j : List Nat}
    (h : dropUntil [213, 170] i = some j) : first_prologue i = first_prologue j := by
  induction i with
  | nil =>
    simp only [dropUntil] at h
    split at h
    · next hp => simp [List.isPrefixOf] at hp
    · exact absurd h (by simp)
  | cons a rest ih =>
    rw [dropUntil] at h
    split at h
    · simp only [Option.some.injEq] at h
      subst h
      rfl
    · next hnp =>
      rw [first_prologue, if_neg]
      · exact ih h
      · intro hh
        exact hnp (isPrologueHead_starts_with_pair hh)

/-- C8 (amended): `parse_prologue` returns the first three-byte prologue
    `D5 AA X` with `X ∈ {96, B5}` (it is equivalent to a naive byte-by-byte
    scan, so overlapping false starts are handled), and fails needing more
    data when no full prologue exists.  On a third-byte mismatch the source
    resumes scanning at the mismatching byte itself — the byte right after
    the matched `D5 AA` pair — not at the byte after the mismatch. -/
theorem parse_prologue_first_match (i : List Nat) :
    parse_prologue i = (first_prologue i).map (fun p => (p.drop 3, p)) := by
  generalize hn : i.length = n
  induction n using Nat.strong_induction_on generalizing i with
  | _ n ih =>
  subst hn
  rw [parse_prologue.eq_def]
  cases hd : dropUntil [0xD5, 0xAA] i with
  | none =>
    rw [first_prologue_of_dropUntil_none hd]
    rfl
  | some j =>
    have hpre := List.isPrefixOf_iff_prefix.mp (dropUntil_starts_with_needle hd)
    obtain ⟨t, rfl⟩ := hpre
    have hfp : first_prologue i = first_prologue (213 :: 170 :: t) :=
      first_prologue_of_dropUntil_some hd
    rw [hfp]
    have hlen : (213 :: 170 :: t).length ≤ i.length := dropUntil_length_le hd
    simp only [List.cons_append, List.nil_append, List.drop_succ_cons, List.drop_zero]
    cases t with
    | nil => rfl
    | cons x rest =>
      show (if x = 0x96 ∨ x = 0xB5 then some (rest, 213 :: 170 :: x :: rest)
            else parse_prologue (x :: rest)) =
          Option.map (fun p => (p.drop 3, p)) (first_prologue (213 :: 170 :: x :: rest))
      by_cases hx : x = 0x96 ∨ x = 0xB5
      · rw [if_pos hx]
        have hh : isPrologueHead (213 :: 170 :: x :: rest) = true := by
          rcases hx with rfl | rfl <;> rfl
        rw [first_prologue, if_pos hh]
        rfl
      · rw [if_neg hx]
        have hx1 : x ≠ 150 := fun hc => hx (Or.inl hc)
        have hx2 : x ≠ 181 := fun hc => hx (Or.inr hc)
        rw [first_prologue, if_neg (by simp [isPrologueHead, hx1, hx2])]
        rw [first_prologue,
          if_neg (by simp [isPrologueHead_false_of_head (show (170 : Nat) ≠ 213 by decide)])]
        have hlt : (x :: rest).length < i.length := by
          simp only [List.length_cons] at hlen ⊢
          omega
        exact ih _ hlt (x :: rest) rfl

/-- C8 counterexample: on input `D5 AA D5 AA 96` the source scanner finds
    the prologue that starts at the mismatching byte, while the spec's
    "resume from the byte after the mismatch" rule finds nothing. -/
theorem parse_prologue_resume_counterexample :
    parse_prologue [213, 170, 213, 170, 150] = some ([], [213, 170, 150]) ∧
    parse_prologue_spec_resume [213, 170, 213, 170, 150] = none := by
  constructor
  · rw [parse_prologue.eq_def]
    show parse_prologue [213, 170, 150] = some ([], [213, 170, 150])
    rw [parse_prologue.eq_def]
    rfl
  · rw [parse_prologue_spec_resume.eq_def]
    show parse_prologue_spec_resume [170, 150] = none
    rw [parse_prologue_spec_resume.eq_def]
    rfl

/-- C3: the address-field checksum computed by
    `find_and_parse_address_field` is `volume ^ track ^ sector`: a field
    returned with `ignore-checksums` off always satisfies it; on the S3
    input the mismatch is fatal with computed checksum 236 against stored
    0 and exactly the claimed panic message; and with `ignore-checksums`
    on, the same S3 input still returns the address field. -/
theorem address_field_checksum_behavior :
    (∀ (ign : Bool) (i : List Nat) f rest,
      find_and_parse_address_field ign i = .ok (f, rest) →
      ign = true ∨ f.volume ^^^ f.track ^^^ f.sector = f.checksum) ∧
    find_and_parse_address_field false s3_address_field_input =
      .error (.checksumMismatch 236 0) ∧
    addr_message (.checksumMismatch 236 0) =
      "Address field computed checksum not equal to disk checksum: 236 0" ∧
    find_and_parse_address_field true s3_address_field_input =
      .ok (⟨254, 23, 5, 0⟩, []) := by
  refine ⟨?_, by rfl, by rfl, by rfl⟩
  intro ign i f rest hp
  cases ign with
  | true => exact Or.inl rfl
  | false =>
    right
    simp only [find_and_parse_address_field, bind, Except.bind] at hp
    repeat' split at hp
    all_goals try (exact Except.noConfusion hp)
    simp only [Except.ok.injEq, Prod.mk.injEq] at hp
    obtain ⟨hf, hrest⟩ := hp
    subst hf
    rename_i hcond
    simpa using hcond

/-- C3 witness: the theorem applied at the concrete S2 input (good
    checksum, `ignore-checksums` off). -/
theorem address_field_checksum_behavior_witness :
    ((false = true) ∨ (254 : Nat) ^^^ 23 ^^^ 5 = 236) ∧
    find_and_parse_address_field false s2_address_field_input =
      .ok (⟨254, 23, 5, 236⟩, []) :=
  ⟨address_field_checksum_behavior.1 false s2_address_field_input
      ⟨254, 23, 5, 236⟩ [] (by rfl), by rfl⟩

set_option maxRecDepth 10000 in
theorem c7_parse_catalog_cyclic :
    parse_catalog c7_cyclic_catalog_sector =
      some (⟨0, 17, 2, List.replicate 8 0, []⟩, []) := by
  rfl

set_option maxRecDepth 10000 in
theorem c7_tsl_cyclic :
    parse_track_sector_list c7_cyclic_tsl_sector =
      some (⟨0, some 5, some 5, [0, 0], [0, 0], [0, 0, 0, 0, 0], []⟩,
            List.replicate 242 0) := by
  rfl

theorem c7_catalog_loop_none :
    ∀ fuel acc, parse_catalogs_loop c7_cyclic_tracks fuel
      ⟨0, 17, 2, List.replicate 8 0, []⟩ acc = none := by
  intro fuel
  induction fuel with
  | zero => intro acc; rfl
  | succ n ih =>
    intro acc
    show parse_catalogs_loop c7_cyclic_tracks (n + 1) _ acc = none
    rw [parse_catalogs_loop]
    rw [if_pos (by exact ⟨by decide, by decide⟩)]
    simp only [c7_cyclic_tracks]
    rw [c7_parse_catalog_cyclic]
    exact ih _

theorem c7_build_loop_none :
    ∀ fuel acc, build_file_loop c7_cyclic_tsl_tracks fuel
      (some 5) (some 5) acc = none := by
  intro fuel
  induction fuel with
  | zero => intro acc; rfl
  | succ n ih =>
    intro acc
    rw [build_file_loop]
    simp only [c7_cyclic_tsl_tracks]
    rw [c7_tsl_cyclic]
    exact ih _

/-- C7: neither chain walk is capped.  On a catalog sector whose
    next-pointer refers back to itself, `parse_catalogs` never finishes
    (the fuelled model returns `none` for every fuel), and likewise
    `FileEntry::build_file` on a self-referencing track/sector list:
    there is no 121- or 35-block visited bound in either loop. -/
theorem catalog_walks_nonterminating :
    (∀ fuel, parse_catalogs c7_cyclic_tracks 17 2 fuel = none) ∧
    (∀ fuel, build_file c7_cyclic_tsl_tracks c7_cyclic_entry fuel = none) := by
  constructor
  · intro fuel
    rw [parse_catalogs]
    simp only [c7_cyclic_tracks]
    rw [c7_parse_catalog_cyclic]
    exact c7_catalog_loop_none fuel _
  · intro fuel
    rw [build_file]
    simp only [c7_cyclic_tsl_tracks, c7_cyclic_entry]
    rw [c7_tsl_cyclic]
    apply c7_build_loop_none

/-- C5 counterexample: for the 30-byte on-disk name `80 A0 ... A0`,
    `FileEntry::filename` leaves the `0x80` byte unchanged (the code
    compares with strict `>`), so the UTF-8 conversion fails; the spec's
    "subtract 0x80 from bytes ≥ 0x80" decode would give `[0x00]`. -/
theorem filename_decode_counterexample :
    (0x80 :: List.replicate 29 0xA0).length = 30 ∧
    filename_decode (0x80 :: List.replicate 29 0xA0) = none ∧
    filename_decode_spec_ge (0x80 :: List.replicate 29 0xA0) = [0] := by
  refine ⟨by rfl, by rfl, by rfl⟩

set_option maxRecDepth 10000 in
/-- C5 (amended): on byte values, `FileEntry::filename` agrees with the
    decode that subtracts 0x80 only from bytes strictly greater than
    0x80 and then strips trailing spaces, failing when a byte equal to
    0x80 remains. -/
theorem filename_decode_amended :
    ∀ name : List Nat, (∀ c ∈ name, c < 256) →
      filename_decode name = filename_decode_spec_gt name := by
  intro name hb
  unfold filename_decode filename_decode_spec_gt
  have hm : ∀ x ∈ name.map (fun c => if 0x80 < c then c - 0x80 else c), x ≤ 0x80 := by
    intro x hx
    simp only [List.mem_map] at hx
    obtain ⟨c, hc, rfl⟩ := hx
    have := hb c hc
    split <;> omega
  by_cases h128 : (0x80 : Nat) ∈ name.map (fun c => if 0x80 < c then c - 0x80 else c)
  · rw [if_pos h128]
    rw [if_neg]
    intro hall
    rw [List.all_eq_true] at hall
    have := hall _ h128
    simp at this
  · rw [if_neg h128]
    rw [if_pos]
    rw [List.all_eq_true]
    intro x hx
    have h1 := hm x hx
    have h2 : x ≠ 0x80 := fun he => h128 (he ▸ hx)
    simp only [decide_eq_true_eq]
    omega

set_option maxRecDepth 10000 in
/-- C5 witness: the amended equivalence applied to the on-disk "HELLO"
    name. -/
theorem filename_decode_amended_witness :
    filename_decode
        ([0xC8, 0xC5, 0xCC, 0xCC, 0xCF] ++ List.replicate 25 0xA0) =
      filename_decode_spec_gt
        ([0xC8, 0xC5, 0xCC, 0xCC, 0xCF] ++ List.replicate 25 0xA0) :=
  filename_decode_amended ([0xC8, 0xC5, 0xCC, 0xCC, 0xCF] ++ List.replicate 25 0xA0)
    (by decide)

set_option maxRecDepth 10000 in
/-- C2 counterexample: the file entry with name `[0x00]` satisfies the
    claim's hypotheses (length 1, low-ASCII bytes, no trailing spaces),
    but the parse of its serialization does not reproduce the name: the
    on-disk byte becomes `0x80`, which the decode leaves as `0x80`
    (strict `> 0x80` comparison) so `filename` fails instead of
    returning the original name. -/
theorem file_entry_round_trip_counterexample :
    (1 ≤ ([0] : List Nat).length ∧ ([0] : List Nat).length ≤ 30 ∧
      (∀ c ∈ ([0] : List Nat), c < 0x80) ∧
      ([0] : List Nat).getLast? ≠ some 0x20) ∧
    file_entry_as_vec ⟨1, 1, .Text, false, [0], 1⟩ =
      .ok ([1, 1, 0, 0x80] ++ List.replicate 29 0xA0 ++ [1, 0]) ∧
    parse_file_entry ([1, 1, 0, 0x80] ++ List.replicate 29 0xA0 ++ [1, 0]) =
      some (⟨1, 1, .Text, false, 0x80 :: List.replicate 29 0xA0, 1⟩, []) ∧
    filename_decode (0x80 :: List.replicate 29 0xA0) = none := by
  refine ⟨by decide, by rfl, by rfl, by rfl⟩

theorem parse_file_entry_shape (t s ft b0 b1 : Nat) (name30 rest : List Nat)
    (h : name30.length = 30) :
    parse_file_entry (t :: s :: ft :: (name30 ++ ([b0, b1] ++ rest))) =
      some (⟨t, s, apple_file_type_of_code (ft &&& 0x7F), (ft &&& 0x80) != 0,
             name30, b0 + 256 * b1⟩, rest) := by
  have htake : takeN 30 (name30 ++ ([b0, b1] ++ rest)) =
      some (name30, b0 :: b1 :: rest) := by
    unfold takeN
    rw [if_pos (by simp; omega)]
    rw [← h, List.take_left, List.drop_left]
    rfl
  simp only [parse_file_entry, le_u8, Option.bind_eq_bind, Option.some_bind, htake]
  rfl

theorem trim_trailing_spaces_append_replicate (name : List Nat) (k : Nat)
    (h : name.getLast? ≠ some 0x20) :
    trim_trailing_spaces (name ++ List.replicate k 0x20) = name := by
  unfold trim_trailing_spaces
  rw [List.reverse_append, List.reverse_replicate]
  have hdrop : ∀ m (l : List Nat),
      List.dropWhile (fun c => c == 0x20) (List.replicate m 0x20 ++ l) =
        List.dropWhile (fun c => c == 0x20) l := by
    intro m
    induction m with
    | zero => intro l; rfl
    | succ mm ih =>
      intro l
      rw [List.replicate_succ, List.cons_append, List.dropWhile_cons]
      rw [if_pos (by rfl)]
      exact ih l
  rw [hdrop]
  have hself : List.dropWhile (fun c => c == 0x20) name.reverse = name.reverse := by
    cases hrev : name.reverse with
    | nil => rfl
    | cons a t =>
      rw [List.dropWhile_cons]
      rw [if_neg]
      intro hb
      have ha : name.getLast? = some a := by
        rw [← List.head?_reverse, hrev]
        rfl
      have : a = 0x20 := by simpa using hb
      exact h (by rw [ha, this])
  rw [hself, List.reverse_reverse]

/-- C2 (amended): for every FileEntry whose name has length 1..30,
    consists of nonzero low-ASCII bytes (0x01..0x7F), and has no trailing
    space, parsing the 35-byte serialization reproduces the TSL track,
    TSL sector, file type, locked flag, decoded name, and
    length-in-sectors. -/
theorem file_entry_round_trip_amended (e : AppleFileEntry)
    (h1 : 1 ≤ e.file_name.length) (h2 : e.file_name.length ≤ 30)
    (h3 : ∀ c ∈ e.file_name, 0 < c ∧ c < 0x80)
    (h4 : e.file_name.getLast? ≠ some 0x20)
    (h5 : e.file_length_in_sectors < 65536) :
    ∃ v p, file_entry_as_vec e = .ok v ∧
      parse_file_entry v = some (p, []) ∧
      p.track_of_first_track_sector_list_sector =
        e.track_of_first_track_sector_list_sector ∧
      p.sector_of_first_track_sector_list_sector =
        e.sector_of_first_track_sector_list_sector ∧
      p.file_type = e.file_type ∧
      p.locked = e.locked ∧
      p.file_length_in_sectors = e.file_length_in_sectors ∧
      filename_decode p.file_name = some e.file_name := by
  have hft_code_lt : apple_file_type_code e.file_type < 0x80 := by
    cases e.file_type <;> decide
  refine ⟨[e.track_of_first_track_sector_list_sector,
           e.sector_of_first_track_sector_list_sector,
           if e.locked then apple_file_type_code e.file_type + 0x80
           else apple_file_type_code e.file_type] ++
          e.file_name.map (fun c => c + 0x80) ++
          List.replicate (30 - e.file_name.length) 0xA0 ++
          little_endian_word_to_bytes e.file_length_in_sectors,
        ⟨e.track_of_first_track_sector_list_sector,
         e.sector_of_first_track_sector_list_sector,
         e.file_type, e.locked,
         e.file_name.map (fun c => c + 0x80) ++
           List.replicate (30 - e.file_name.length) 0xA0,
         e.file_length_in_sectors⟩, ?_, ?_, rfl, rfl, rfl, rfl, rfl, ?_⟩
  · unfold file_entry_as_vec
    rw [if_neg (by omega)]
  · have hlen : (e.file_name.map (fun c => c + 0x80) ++
        List.replicate (30 - e.file_name.length) 0xA0).length = 30 := by
      simp
      omega
    have hshape : ([e.track_of_first_track_sector_list_sector,
           e.sector_of_first_track_sector_list_sector,
           if e.locked then apple_file_type_code e.file_type + 0x80
           else apple_file_type_code e.file_type] ++
          e.file_name.map (fun c => c + 0x80) ++
          List.replicate (30 - e.file_name.length) 0xA0 ++
          little_endian_word_to_bytes e.file_length_in_sectors) =
        e.track_of_first_track_sector_list_sector ::
          e.sector_of_first_track_sector_list_sector ::
          (if e.locked then apple_file_type_code e.file_type + 0x80
           else apple_file_type_code e.file_type) ::
          ((e.file_name.map (fun c => c + 0x80) ++
            List.replicate (30 - e.file_name.length) 0xA0) ++
           ([e.file_length_in_sectors &&& 0xFF,
             (e.file_length_in_sectors >>> 8) &&& 0xFF] ++ [])) := by
      simp [little_endian_word_to_bytes, List.append_assoc]
    rw [hshape, parse_file_entry_shape _ _ _ _ _ _ _ hlen]
    have hlow : e.file_length_in_sectors &&& 0xFF =
        e.file_length_in_sectors % 256 := Nat.and_pow_two_sub_one_eq_mod _ 8
    have hhigh : (e.file_length_in_sectors >>> 8) &&& 0xFF =
        (e.file_length_in_sectors / 256) % 256 := by
      have hh := Nat.and_pow_two_sub_one_eq_mod (e.file_length_in_sectors >>> 8) 8
      have h2 : (2 : Nat) ^ 8 = 256 := by norm_num
      rw [Nat.shiftRight_eq_div_pow, h2] at hh
      norm_num at hh
      rw [Nat.shiftRight_eq_div_pow, h2]
      exact hh
    have hword : (e.file_length_in_sectors &&& 0xFF) +
        256 * ((e.file_length_in_sectors >>> 8) &&& 0xFF) =
        e.file_length_in_sectors := by
      rw [hlow, hhigh]
      omega
    have hty : apple_file_type_of_code
        ((if e.locked then apple_file_type_code e.file_type + 0x80
          else apple_file_type_code e.file_type) &&& 0x7F) = e.file_type := by
      cases e.file_type <;> cases e.locked <;> rfl
    have hlk : (((if e.locked then apple_file_type_code e.file_type + 0x80
          else apple_file_type_code e.file_type) &&& 0x80) != 0) = e.locked := by
      cases e.file_type <;> cases e.locked <;> rfl
    rw [hword, hty, hlk]
  · simp only [filename_decode]
    have hmap : (e.file_name.map (fun c => c + 0x80) ++
        List.replicate (30 - e.file_name.length) 0xA0).map
          (fun c => if 0x80 < c then c - 0x80 else c) =
        e.file_name ++ List.replicate (30 - e.file_name.length) 0x20 := by
      rw [List.map_append, List.map_map, List.map_replicate]
      congr 1
      have hpt : ∀ c ∈ e.file_name,
          ((fun c => if 0x80 < c then c - 0x80 else c) ∘ (fun c => c + 0x80)) c =
            id c := by
        intro c hc
        have := h3 c hc
        simp only [Function.comp_apply, id_eq]
        rw [if_pos (by omega)]
        omega
      rw [List.map_congr_left hpt, List.map_id]
    rw [hmap]
    rw [if_pos]
    · rw [trim_trailing_spaces_append_replicate _ _ h4]
    · rw [List.all_eq_true]
      intro x hx
      rcases List.mem_append.mp hx with hx | hx
      · have := h3 x hx
        simp only [decide_eq_true_eq]
        omega
      · have := List.eq_of_mem_replicate hx
        subst this
        rfl

set_option maxRecDepth 10000 in
/-- C2 witness: the amended round trip applied to the "HELLO" entry of
    the repository's own tests. -/
theorem file_entry_round_trip_amended_witness :
    ∃ v p,
      file_entry_as_vec ⟨0x12, 0x0F, .AppleSoftBasic, false,
        [0x48, 0x45, 0x4C, 0x4C, 0x4F], 2⟩ = .ok v ∧
      parse_file_entry v = some (p, []) ∧
      p.track_of_first_track_sector_list_sector = 0x12 ∧
      p.sector_of_first_track_sector_list_sector = 0x0F ∧
      p.file_type = .AppleSoftBasic ∧
      p.locked = false ∧
      p.file_length_in_sectors = 2 ∧
      filename_decode p.file_name = some [0x48, 0x45, 0x4C, 0x4C, 0x4F] :=
  file_entry_round_trip_amended ⟨0x12, 0x0F, .AppleSoftBasic, false,
      [0x48, 0x45, 0x4C, 0x4C, 0x4F], 2⟩
    (by decide) (by decide) (by decide) (by decide) (by decide)

/-- C6: evaluating `track_to_block_length` at the range boundaries.  The
    half-open Rust ranges put track 17 in the 19-sector band, track 24 in
    the 18-sector band, track 30 in the 17-sector band, and track 35 out
    of range, contradicting the claimed (and physically correct)
    inclusive geometry. -/
theorem track_to_block_length_eval :
    track_to_block_length 16 = .ok 21 ∧
    track_to_block_length 17 = .ok 19 ∧
    track_to_block_length 24 = .ok 18 ∧
    track_to_block_length 30 = .ok 17 ∧
    track_to_block_length 34 = .ok 17 ∧
    track_to_block_length 35 = .error "Invalid track number: {track}" := by
  refine ⟨rfl, rfl, rfl, rfl, rfl, rfl⟩

theorem le_u8_some {i : List Nat} {b : Nat} {r : List Nat}
    (h : le_u8 i = some (b, r)) : i = b :: r := by
  cases i with
  | nil => exact absurd h (by simp [le_u8])
  | cons a t =>
    simp only [le_u8, Option.some.injEq, Prod.mk.injEq] at h
    rw [h.1, h.2]

theorem verify_u8_some {p : Nat → Bool} {i : List Nat} {b : Nat} {r : List Nat}
    (h : verify_u8 p i = some (b, r)) : i = b :: r ∧ p b = true := by
  simp only [verify_u8, Option.bind_eq_bind, Option.bind_eq_some] at h
  obtain ⟨⟨b0, r0⟩, h0, hif⟩ := h
  split at hif
  · simp only [Option.some.injEq, Prod.mk.injEq] at hif
    obtain ⟨rfl, rfl⟩ := hif
    exact ⟨le_u8_some h0, by assumption⟩
  · exact absurd hif (by simp)

theorem takeN_some {n : Nat} {i a r : List Nat}
    (h : takeN n i = some (a, r)) :
    a = i.take n ∧ r = i.drop n ∧ n ≤ i.length := by
  unfold takeN at h
  split at h
  · simp only [Option.some.injEq, Prod.mk.injEq] at h
    exact ⟨h.1.symm, h.2.symm, by assumption⟩
  · exact absurd h (by simp)

theorem le_u16_drop {i : List Nat} {v : Nat} {r : List Nat}
    (h : le_u16 i = some (v, r)) : r = i.drop 2 := by
  match i with
  | [] => exact absurd h (by simp [le_u16])
  | [a] => exact absurd h (by simp [le_u16])
  | a :: b :: t =>
    simp only [le_u16, Option.some.injEq, Prod.mk.injEq] at h
    rw [← h.2]
    rfl

theorem bam_entry_parse_drop {i : List Nat} {e : D64BAMEntry} {r : List Nat}
    (h : bam_entry_parse i = some (e, r)) : r = i.drop 4 := by
  simp only [bam_entry_parse, Option.bind_eq_bind, Option.bind_eq_some] at h
  obtain ⟨⟨b0, r0⟩, h0, ⟨bm, r1⟩, h1, hfin⟩ := h
  simp only [Option.some.injEq, Prod.mk.injEq, pure] at hfin
  obtain ⟨-, rfl⟩ := hfin
  obtain ⟨-, hr1, -⟩ := takeN_some h1
  rw [hr1, le_u8_some h0]
  rfl

theorem countP_bam_drop :
    ∀ (n : Nat) (i : List Nat) (es : List D64BAMEntry) (r : List Nat),
      countP bam_entry_parse n i = some (es, r) → r = i.drop (4 * n) := by
  intro n
  induction n with
  | zero =>
    intro i es r h
    simp only [countP, Option.some.injEq, Prod.mk.injEq] at h
    rw [← h.2]
    rfl
  | succ m ih =>
    intro i es r h
    simp only [countP, Option.bind_eq_bind, Option.bind_eq_some] at h
    obtain ⟨⟨e0, r0⟩, h0, ⟨l1, r1⟩, h1, hfin⟩ := h
    simp only [Option.some.injEq, Prod.mk.injEq, pure] at hfin
    obtain ⟨-, rfl⟩ := hfin
    have hr0 := bam_entry_parse_drop h0
    have := ih r0 l1 r1 h1
    rw [this, hr0, List.drop_drop]
    congr 1
    ring

set_option maxHeartbeats 1000000 in
/-- C9 (amended): every image accepted by the BAM parser carries the magic
    bytes `12 01 41` at absolute offsets `0x16500..0x16502` and the
    DOS-type string "2A" at `0x165A5..0x165A6` (not `0x16563`); any
    deviation makes the parse fail, that being the contrapositive. -/
theorem d64_bam_magic (i : List Nat) (bam : D64BlockAvailabilityMap)
    (rest : List Nat)
    (h : d64_block_availability_map_parse i = some (bam, rest)) :
    i.get? 0x16500 = some 0x12 ∧ i.get? 0x16501 = some 0x01 ∧
    i.get? 0x16502 = some 0x41 ∧
    i.get? 0x165A5 = some 0x32 ∧ i.get? 0x165A6 = some 0x41 := by
  unfold d64_block_availability_map_parse at h
  obtain ⟨⟨pre, j⟩, hskip, hbody⟩ := Option.bind_eq_some.mp h
  obtain ⟨-, hj, -⟩ := takeN_some hskip
  unfold d64_bam_after_skip at hbody
  obtain ⟨⟨t, j1⟩, h1, hbody⟩ := Option.bind_eq_some.mp hbody
  obtain ⟨⟨s, j2⟩, h2, hbody⟩ := Option.bind_eq_some.mp hbody
  obtain ⟨⟨dv, j3⟩, h3, hbody⟩ := Option.bind_eq_some.mp hbody
  obtain ⟨⟨rb, j4⟩, h4, hbody⟩ := Option.bind_eq_some.mp hbody
  obtain ⟨⟨es, j5⟩, h5, hbody⟩ := Option.bind_eq_some.mp hbody
  obtain ⟨⟨nm, j6⟩, h6, hbody⟩ := Option.bind_eq_some.mp hbody
  obtain ⟨⟨r2, j7⟩, h7, hbody⟩ := Option.bind_eq_some.mp hbody
  obtain ⟨⟨id2, j8⟩, h8, hbody⟩ := Option.bind_eq_some.mp hbody
  obtain ⟨⟨r3, j9⟩, h9, hbody⟩ := Option.bind_eq_some.mp hbody
  obtain ⟨⟨tg, j10⟩, h10, hbody⟩ := Option.bind_eq_some.mp hbody
  obtain ⟨hj1, ht⟩ := verify_u8_some h1
  obtain ⟨hj2, hs⟩ := verify_u8_some h2
  obtain ⟨hj3, hdv⟩ := verify_u8_some h3
  have hj4 := le_u8_some h4
  have hj5 := countP_bam_drop 35 _ _ _ h5
  obtain ⟨-, hj6, -⟩ := takeN_some h6
  obtain ⟨-, hj7, -⟩ := takeN_some h7
  have hj8 := le_u16_drop h8
  have hj9 := le_u8_some h9
  -- the tag parse
  unfold tag_2A at h10
  obtain ⟨⟨tg0, j10a⟩, h10a, h10b⟩ := Option.bind_eq_some.mp h10
  obtain ⟨htg0, hj10a, -⟩ := takeN_some h10a
  have h10c : (if tg0 = [0x32, 0x41] then some (tg0, j10a) else none) =
      some (tg, j10) := h10b
  have htg : tg0 = [0x32, 0x41] ∧ tg = tg0 ∧ j10 = j10a := by
    split at h10c
    · next hc =>
      simp only [Option.some.injEq, Prod.mk.injEq] at h10c
      exact ⟨hc, h10c.1.symm, h10c.2.symm⟩
    · exact absurd h10c (by simp)
  have ht' : t = 0x12 := by simpa using ht
  have hs' : s = 0x01 := by simpa using hs
  have hdv' : dv = 0x41 := by simpa using hdv
  have hjshape : j = 0x12 :: 0x01 :: 0x41 :: j3 := by
    rw [hj1, ht', hj2, hs', hj3, hdv']
  have hj9' : j9 = j3.drop 162 := by
    have e4 : j4 = j3.drop 1 := by rw [hj4]; rfl
    have e5 : j5 = j3.drop 141 := by rw [hj5, e4, List.drop_drop]
    have e6 : j6 = j3.drop 157 := by rw [hj6, e5, List.drop_drop]
    have e7 : j7 = j3.drop 159 := by rw [hj7, e6, List.drop_drop]
    have e8 : j8 = j3.drop 161 := by rw [hj8, e7, List.drop_drop]
    have e10 : j9 = j8.drop 1 := by rw [hj9]; rfl
    rw [e10, e8, List.drop_drop]
  have h9shape : j9 = 0x32 :: 0x41 :: (j9.drop 2) := by
    have hsplit := List.take_append_drop 2 j9
    rw [← hsplit]
    rw [← htg0, htg.1]
    simp
  constructor
  · rw [← List.get?_drop i 0x16500 0, ← hj, hjshape]; rfl
  constructor
  · rw [show (0x16501 : Nat) = 0x16500 + 1 from rfl,
      ← List.get?_drop i 0x16500 1, ← hj, hjshape]; rfl
  constructor
  · rw [show (0x16502 : Nat) = 0x16500 + 2 from rfl,
      ← List.get?_drop i 0x16500 2, ← hj, hjshape]; rfl
  constructor
  · rw [show (0x165A5 : Nat) = 0x16500 + 165 from rfl,
      ← List.get?_drop i 0x16500 165, ← hj, hjshape]
    show j3.get? 162 = some 0x32
    rw [← List.get?_drop j3 162 0, ← hj9', h9shape]
    rfl
  · rw [show (0x165A6 : Nat) = 0x16500 + 166 from rfl,
      ← List.get?_drop i 0x16500 166, ← hj, hjshape]
    show j3.get? 163 = some 0x41
    rw [← List.get?_drop j3 162 1, ← hj9', h9shape]
    rfl

/-- The first `0x16500` bytes of an accepted image are skipped exactly. -/
theorem takeN_append_exact (l1 l2 : List Nat) :
    takeN l1.length (l1 ++ l2) = some (l1, l2) := by
  unfold takeN
  rw [if_pos (by simp), List.take_left, List.drop_left]

set_option maxRecDepth 40000 in
/-- The concrete 256-byte BAM block parses to `d64_ok_bam`. -/
theorem d64_after_skip_ok :
    d64_bam_after_skip d64_ok_block = some (d64_ok_bam, []) := by
  rfl

set_option maxRecDepth 40000 in
/-- The concrete image `d64_ok_input` is accepted by the BAM parser. -/
theorem d64_ok_input_parses :
    d64_block_availability_map_parse d64_ok_input = some (d64_ok_bam, []) := by
  have hsk : takeN 0x16500 d64_ok_input =
      some (List.replicate 0x16500 0, d64_ok_block) := by
    have h := takeN_append_exact (List.replicate 0x16500 0) d64_ok_block
    rw [List.length_replicate] at h
    exact h
  unfold d64_block_availability_map_parse
  rw [hsk]
  exact d64_after_skip_ok

/-- C9 counterexample: `d64_ok_input` is accepted by
    `d64_block_availability_map_parser`, yet the bytes at the claimed
    offsets `0x16563..0x16564` are `00 00`, not the ASCII "2A" (which
    actually lives at `0x165A5`). -/
theorem d64_bam_counterexample :
    d64_block_availability_map_parse d64_ok_input = some (d64_ok_bam, []) ∧
    d64_ok_input.get? 0x16563 = some 0 ∧
    d64_ok_input.get? 0x16564 = some 0 := by
  refine ⟨d64_ok_input_parses, ?_, ?_⟩
  · unfold d64_ok_input
    rw [List.get?_append_right (by rw [List.length_replicate]; norm_num)]
    rw [List.length_replicate]
    rfl
  · unfold d64_ok_input
    rw [List.get?_append_right (by rw [List.length_replicate]; norm_num)]
    rw [List.length_replicate]
    rfl

/-- C9 witness: the amended magic-byte theorem applied to the concrete
    accepted image `d64_ok_input`. -/
theorem d64_bam_magic_witness :
    d64_ok_input.get? 0x16500 = some 0x12 ∧
    d64_ok_input.get? 0x16501 = some 0x01 ∧
    d64_ok_input.get? 0x16502 = some 0x41 ∧
    d64_ok_input.get? 0x165A5 = some 0x32 ∧
    d64_ok_input.get? 0x165A6 = some 0x41 :=
  d64_bam_magic d64_ok_input d64_ok_bam [] d64_ok_input_parses

end ImageRider
